import Mathlib

/-!
Shallow embedding of the heading/title inference core of the repository
(`heading_extractor.py`, class `HeadingExtractor`).

Text is modelled as `List Char`; Python floats (font sizes, coordinates,
scores) are modelled as exact rationals `ℚ`; Python's stable `list.sort`
is modelled by a stable insertion sort.  Each definition mirrors one
function (or inline regex) of the source; the source line is noted in the
doc comment.
-/

namespace HeadingExtractor

set_option maxRecDepth 16384

/-- Convert a string literal to the `List Char` text representation. -/
def str (s : String) : List Char := s.data

/-- Python `\s` / `str.split()` / `str.strip()` whitespace class
(ASCII: space, tab, newline, carriage return, form feed, vertical tab). -/
def pyIsSpace (c : Char) : Bool := c.isWhitespace || c.val == 11 || c.val == 12

/-- Python `str.strip()`: drop whitespace from both ends. -/
def pyStrip (cs : List Char) : List Char :=
  ((cs.dropWhile pyIsSpace).reverse.dropWhile pyIsSpace).reverse

/-- Python `str.lower()` on one character (ASCII letters, plus the Latin-1
capital `Â` that appears in a source pattern). -/
def pyLowerChar (c : Char) : Char :=
  if c.isUpper then c.toLower else if c = 'Â' then 'â' else c

/-- Python `str.lower()`. -/
def pyLower (cs : List Char) : List Char := cs.map pyLowerChar

/-- Python `str.isdigit()` (ASCII digits): nonempty and all digits. -/
def pyIsDigitStr (cs : List Char) : Bool := !cs.isEmpty && cs.all Char.isDigit

/-- Python `str.isupper()` (ASCII): at least one letter and no lowercase letter. -/
def pyIsUpperStr (cs : List Char) : Bool :=
  cs.any Char.isAlpha && cs.all (fun c => !c.isLower)

/-- Single pass of Python `str.split()`: `acc` is the current word,
reversed; a whitespace character flushes it. -/
def pySplitGo : List Char → List Char → List (List Char)
  | [], acc => if acc.isEmpty then [] else [acc.reverse]
  | c :: cs, acc =>
    if pyIsSpace c then
      if acc.isEmpty then pySplitGo cs [] else acc.reverse :: pySplitGo cs []
    else pySplitGo cs (c :: acc)

/-- Python `str.split()` (no argument): split on runs of whitespace,
discarding empty pieces. -/
def pySplit (cs : List Char) : List (List Char) := pySplitGo cs []

/-- Last character equals `c` (Python `str.endswith` with a single char). -/
def endsWithChar (cs : List Char) (c : Char) : Bool :=
  match cs.getLast? with
  | some d => d == c
  | none => false

/-- Head of the text is a whitespace character (used for a leading `\s+`). -/
def headIsWs : List Char → Bool
  | [] => false
  | c :: _ => pyIsSpace c

/-- Head of the text is a digit (used for a leading `\d+` whose tail is free). -/
def headIsDigit : List Char → Bool
  | [] => false
  | c :: _ => c.isDigit

/-- Consume one-or-more characters satisfying `p` (a greedy `X+`); `none`
when the first character fails `p`. -/
def munch1 (p : Char → Bool) : List Char → Option (List Char)
  | [] => none
  | c :: cs => if p c then some (cs.dropWhile p) else none

/-- The regex fragment `\.?\s+` at the head of the text (with backtracking:
when the head is a dot, the skip-the-dot branch cannot see whitespace there). -/
def optDotWs : List Char → Bool
  | '.' :: r => headIsWs r
  | r => headIsWs r

/-- `re.match(r'^\d+\.?\s+', text)` — source line 17 / 269 / 313. -/
def matchNum1 (cs : List Char) : Bool :=
  match munch1 Char.isDigit cs with
  | none => false
  | some r => optDotWs r

/-- `re.match(r'^\d+\.\d+\.?\s+', text)` — source line 18 / 271. -/
def matchNum2 (cs : List Char) : Bool :=
  match munch1 Char.isDigit cs with
  | some ('.' :: r) =>
    match munch1 Char.isDigit r with
    | none => false
    | some r2 => optDotWs r2
  | _ => false

/-- `re.match(r'^\d+\.\d+\.\d+\.?\s+', text)` — source line 19 / 273. -/
def matchNum3 (cs : List Char) : Bool :=
  match munch1 Char.isDigit cs with
  | some ('.' :: r) =>
    match munch1 Char.isDigit r with
    | some ('.' :: r2) =>
      match munch1 Char.isDigit r2 with
      | none => false
      | some r3 => optDotWs r3
    | _ => false
  | _ => false

/-- `re.match(r'^[A-Z][A-Z\s]{2,}$', text, re.IGNORECASE)` — source line 20.
With IGNORECASE, `[A-Z]` matches any ASCII letter; the `{2,}` run must
reach the end of the text. -/
def matchAllCaps (cs : List Char) : Bool :=
  match cs with
  | [] => false
  | c :: rest =>
    c.isAlpha && decide (2 ≤ rest.length) &&
      rest.all (fun x => x.isAlpha || pyIsSpace x)

/-- `[IVX]` under IGNORECASE. -/
def isRomanIC (c : Char) : Bool :=
  c = 'I' || c = 'V' || c = 'X' || c = 'i' || c = 'v' || c = 'x'

/-- `re.match(r'^[IVX]+\.?\s+', text, re.IGNORECASE)` — source line 21. -/
def matchRoman (cs : List Char) : Bool :=
  match munch1 isRomanIC cs with
  | none => false
  | some r => optDotWs r

/-- `re.match(r'^[A-Z]\.?\s+', text, re.IGNORECASE)` — source line 22. -/
def matchSingleCap (cs : List Char) : Bool :=
  match cs with
  | [] => false
  | c :: r => c.isAlpha && optDotWs r

/-- `re.match(r'^\([a-z]\)\s+', text, re.IGNORECASE)` — source line 23. -/
def matchParenLetter (cs : List Char) : Bool :=
  match cs with
  | '(' :: c :: ')' :: r => c.isAlpha && headIsWs r
  | _ => false

/-- Strip a literal prefix case-insensitively; `none` when it is not there. -/
def stripIC : List Char → List Char → Option (List Char)
  | [], cs => some cs
  | _ :: _, [] => none
  | p :: ps, c :: cs =>
    if pyLowerChar p == pyLowerChar c then stripIC ps cs else none

/-- Strip a literal prefix (case-sensitive); `none` when it is not there. -/
def stripLit : List Char → List Char → Option (List Char)
  | [], cs => some cs
  | _ :: _, [] => none
  | p :: ps, c :: cs => if p == c then stripLit ps cs else none

/-- The regex fragment `\s+\d+` at the head of the text. -/
def wsThenDigit (cs : List Char) : Bool :=
  match munch1 pyIsSpace cs with
  | none => false
  | some r => headIsDigit r

/-- `re.match(r'^Chapter\s+\d+', text, re.IGNORECASE)` — source line 24. -/
def matchChapter (cs : List Char) : Bool :=
  match stripIC (str "chapter") cs with
  | none => false
  | some r => wsThenDigit r

/-- `re.match(r'^Section\s+\d+', text, re.IGNORECASE)` — source line 25. -/
def matchSection (cs : List Char) : Bool :=
  match stripIC (str "section") cs with
  | none => false
  | some r => wsThenDigit r

/-- `re.match(r'^Part\s+[IVX]+', text, re.IGNORECASE)` — source line 26. -/
def matchPart (cs : List Char) : Bool :=
  match stripIC (str "part") cs with
  | none => false
  | some r =>
    match munch1 pyIsSpace r with
    | none => false
    | some r2 =>
      match r2 with
      | [] => false
      | c :: _ => isRomanIC c

/-- `_matches_heading_pattern` (source lines 304–309): any of the ten
patterns of `heading_patterns`, each tried with `re.IGNORECASE`. -/
def _matches_heading_pattern (text : List Char) : Bool :=
  matchNum1 text || matchNum2 text || matchNum3 text || matchAllCaps text ||
  matchRoman text || matchSingleCap text || matchParenLetter text ||
  matchChapter text || matchSection text || matchPart text

/-- `_has_numbering` (source lines 311–313). -/
def _has_numbering (text : List Char) : Bool := matchNum1 text

/-- `heading_keywords` (source lines 30–35). -/
def heading_keywords : List (List Char) :=
  [str "introduction", str "conclusion", str "abstract", str "summary",
   str "overview", str "background", str "methodology", str "results",
   str "discussion", str "references", str "acknowledgments", str "appendix",
   str "chapter", str "section", str "part", str "table of contents",
   str "executive summary", str "literature review"]

/-- Python's `needle in hay` substring test. -/
def hasSub (needle : List Char) : List Char → Bool
  | [] => needle.isEmpty
  | c :: rest => needle.isPrefixOf (c :: rest) || hasSub needle rest

/-- `_contains_heading_keywords` (source lines 315–318): the lower-cased
text contains some keyword as a substring. -/
def _contains_heading_keywords (text : List Char) : Bool :=
  let tl := pyLower text
  heading_keywords.any (fun k => hasSub k tl)

/-- `_is_title_case` (source lines 320–331): needs at least two
whitespace-separated words; at least 60 % of the words must start with an
uppercase letter and be longer than one character. -/
def _is_title_case (text : List Char) : Bool :=
  let words := pySplit text
  if words.length < 2 then false
  else
    let title_words := (words.filter (fun w =>
      match w with
      | [] => false
      | c :: rest => c.isUpper && decide (1 ≤ rest.length))).length
    decide (3 * words.length ≤ 5 * title_words)

/-- `_is_likely_header_footer` (source lines 333–358).  The nine patterns
are matched (anchored at the start, by `re.match`, with no flags) against
the lower-cased, stripped text; then short pure-numeric text is caught. -/
def _is_likely_header_footer (text : List Char) : Bool :=
  let tl := pyStrip (pyLower text)
  -- r'^\d+$'
  (!tl.isEmpty && tl.all Char.isDigit) ||
  -- r'^page\s+\d+'
  (match stripLit (str "page") tl with
   | none => false
   | some r => wsThenDigit r) ||
  -- r'^\d+\s*$'
  (!(tl.takeWhile Char.isDigit).isEmpty &&
    (tl.dropWhile Char.isDigit).all pyIsSpace) ||
  -- r'^copyright'
  (str "copyright").isPrefixOf tl ||
  -- r'^©'
  (match tl with | '©' :: _ => true | _ => false) ||
  -- r'^Â©'
  (str "Â©").isPrefixOf tl ||
  -- r'^www\.'
  (str "www.").isPrefixOf tl ||
  -- r'^http'
  (str "http").isPrefixOf tl ||
  -- r'@'
  (match tl with | '@' :: _ => true | _ => false) ||
  -- very short pure-numeric text
  (decide (tl.length ≤ 3) && pyIsDigitStr tl)

/-- One text block as produced by the parser (`pdf_parser.py`,
`_process_text_block`): the fields the core reads. -/
structure Block where
  text : List Char
  font_size : ℚ
  is_bold : Bool
  x_position : ℚ
  y_position : ℚ
deriving DecidableEq

/-- One parsed page: `page_number` (1-indexed) and its text blocks. -/
structure Page where
  page_number : ℕ
  text_blocks : List Block
deriving DecidableEq

/-- Document statistics (`_get_doc_stats`, source lines 283–302).  Only
`avg_font_size` is ever consulted downstream; the other keys are absent
(`none`) for an empty document. -/
structure DocStats where
  avg_font_size : ℚ
  max_font_size : Option ℚ
  min_font_size : Option ℚ
  total_blocks : Option ℕ
deriving DecidableEq

/-- Maximum of a nonempty list of rationals (Python `max`). -/
def listMax (s : ℚ) (rest : List ℚ) : ℚ := rest.foldl max s

/-- Minimum of a nonempty list of rationals (Python `min`). -/
def listMin (s : ℚ) (rest : List ℚ) : ℚ := rest.foldl min s

/-- `_get_doc_stats` (source lines 283–302). -/
def _get_doc_stats (pages_data : List Page) : DocStats :=
  let all_font_sizes := pages_data.flatMap (fun p => p.text_blocks.map (·.font_size))
  match all_font_sizes with
  | [] => ⟨12, none, none, none⟩
  | s :: rest =>
    ⟨(s :: rest).sum / (s :: rest).length, some (listMax s rest),
     some (listMin s rest), some (s :: rest).length⟩

/-- `_calculate_heading_score` (source lines 176–226): additive score over
the trimmed text and the block attributes, capped above by `min score 1.0`. -/
def _calculate_heading_score (block : Block) (doc_stats : DocStats) : ℚ :=
  let text := pyStrip block.text
  let score : ℚ := 0
  let avg := doc_stats.avg_font_size
  let score := if block.font_size > avg * (12/10) then score + 3/10
    else if block.font_size > avg then score + 15/100 else score
  let score := if block.is_bold then score + 2/10 else score
  let score := if block.x_position < 100 then score + 1/10 else score
  let score := if _matches_heading_pattern text then score + 25/100 else score
  let score := if _contains_heading_keywords text then score + 15/100 else score
  let score := if 5 ≤ text.length ∧ text.length ≤ 100 then score + 1/10
    else if 200 < text.length then score - 2/10 else score
  let score := if _is_title_case text then score + 1/10
    else if pyIsUpperStr text ∧ 3 < text.length then score + 15/100 else score
  let score := if ¬ endsWithChar text '.' ∧ ¬ endsWithChar text ',' then
    score + 5/100 else score
  min score 1

/-- One heading candidate: the dict built at source lines 161–172.  The
`level` key is absent at creation (modelled as `""`) and assigned by
`_classify_headings`. -/
structure Cand where
  text : List Char
  page : ℕ
  font_size : ℚ
  is_bold : Bool
  y_position : ℚ
  x_position : ℚ
  heading_score : ℚ
  has_numbering : Bool
  matches_pattern : Bool
  contains_keywords : Bool
  level : String
deriving DecidableEq

/-- Build the candidate dict of source lines 161–172 from an admitted block. -/
def mkCand (page_num : ℕ) (block : Block) (score : ℚ) : Cand :=
  let text := pyStrip block.text
  { text := text, page := page_num, font_size := block.font_size,
    is_bold := block.is_bold, y_position := block.y_position,
    x_position := block.x_position, heading_score := score,
    has_numbering := _has_numbering text,
    matches_pattern := _matches_heading_pattern text,
    contains_keywords := _contains_heading_keywords text, level := "" }

/-- The block loop of `_extract_page_headings` (source lines 142–172),
with the four skip tests in source order. -/
def extractBlocksLoop (stats : DocStats) (page_num : ℕ) : List Block → List Cand
  | [] => []
  | b :: bs =>
    let text := pyStrip b.text
    if text.length < 2 then extractBlocksLoop stats page_num bs
    else if _is_likely_header_footer text then extractBlocksLoop stats page_num bs
    else if 300 < text.length then extractBlocksLoop stats page_num bs
    else
      let heading_score := _calculate_heading_score b stats
      if heading_score > 3/10 then
        mkCand page_num b heading_score :: extractBlocksLoop stats page_num bs
      else extractBlocksLoop stats page_num bs

/-- `_extract_page_headings` (source lines 136–174). -/
def _extract_page_headings (page : Page) (doc_stats : DocStats) : List Cand :=
  extractBlocksLoop doc_stats page.page_number page.text_blocks

/-- Stable insertion of `a` into `l`: `a` goes in front of the first
element `b` with `le a b`. -/
def insertOrd {α : Type} (le : α → α → Bool) (a : α) : List α → List α
  | [] => [a]
  | b :: l => if le a b then a :: b :: l else b :: insertOrd le a l

/-- Stable insertion sort; models Python's stable `list.sort` when `le`
is `key x ≤ key y` for the sort key in use. -/
def insertSort {α : Type} (le : α → α → Bool) : List α → List α
  | [] => []
  | a :: l => insertOrd le a (insertSort le l)

/-- Comparison for `headings.sort(key=lambda x: x['font_size'], reverse=True)`
(source line 237): descending font size. -/
def leFontDesc (a b : Cand) : Bool := decide (b.font_size ≤ a.font_size)

/-- Comparison for `sort(key=lambda x: (x['page'], x.get('y_position', 0)))`
(source line 123): ascending lexicographic `(page, y)`. -/
def lePageY (a b : Cand) : Bool :=
  decide (a.page < b.page) ||
    (decide (a.page = b.page) && decide (a.y_position ≤ b.y_position))

/-- Comparison for rationals, descending (`font_sizes.sort(reverse=True)`). -/
def leQDesc (a b : ℚ) : Bool := decide (b ≤ a)

/-- The `size_to_level` dict built at source lines 244–257, as an
association list from the descending distinct font sizes. -/
def sizeLevels : List ℚ → List (ℚ × String)
  | s0 :: s1 :: s2 :: rest =>
    (s0, "H1") :: (s1, "H2") :: (s2, "H3") :: rest.map (fun s => (s, "H3"))
  | [s0, s1] => [(s0, "H1"), (s1, "H2")]
  | [s0] => [(s0, "H1")]
  | [] => []

/-- `size_to_level.get(font_size, 'H3')` (source line 263). -/
def lookupLevel : List (ℚ × String) → ℚ → String
  | [], _ => "H3"
  | (s, l) :: rest, f => if f = s then l else lookupLevel rest f

/-- The numbering-based refinement of source lines 268–276, applied to the
trimmed candidate text; checked in source order (depth 1, 2, 3). -/
def refineLevel (text : List Char) (base_level : String) : String :=
  if matchNum1 text then "H1"
  else if matchNum2 text then "H2"
  else if matchNum3 text then "H3"
  else base_level

/-- `_classify_headings` (source lines 228–281): sort by descending font
size, build the font-rank map over the distinct sizes, then assign each
candidate its refined level. -/
def _classify_headings (headings : List Cand) (doc_stats : DocStats) :
    List Cand :=
  if headings.isEmpty then []
  else
    let sorted := insertSort leFontDesc headings
    let font_sizes := insertSort leQDesc (sorted.map (·.font_size)).dedup
    let size_to_level := sizeLevels font_sizes
    sorted.map (fun h =>
      let lvl := refineLevel (pyStrip h.text) (lookupLevel size_to_level h.font_size)
      { h with level := lvl })

/-- One output heading: the dict of source lines 128–132. -/
structure Heading where
  level : String
  text : List Char
  page : ℕ
deriving DecidableEq

/-- Projection to the public heading shape (source lines 127–132). -/
def projectHeading (c : Cand) : Heading := ⟨c.level, c.text, c.page⟩

/-- All candidates of all pages (the loop of source lines 115–117). -/
def allCandidates (pages_data : List Page) (doc_stats : DocStats) : List Cand :=
  pages_data.flatMap (fun p => _extract_page_headings p doc_stats)

/-- The classified candidate list after the final `(page, y)` sort
(source lines 119–123). -/
def sortedClassified (pages_data : List Page) : List Cand :=
  let doc_stats := _get_doc_stats pages_data
  insertSort lePageY (_classify_headings (allCandidates pages_data doc_stats) doc_stats)

/-- `extract_headings` (source lines 95–134). -/
def extract_headings (pages_data : List Page) : List Heading :=
  if pages_data.isEmpty then []
  else (sortedClassified pages_data).map projectHeading

/-- One title candidate: the dict of source lines 73–79 (`page_number`
falls back to `1`, the parser's blocks carry no such key). -/
structure TitleCand where
  text : List Char
  font_size : ℚ
  is_bold : Bool
  y_position : ℚ
  page_number : ℕ
deriving DecidableEq

/-- Build the title-candidate dict of source lines 73–79. -/
def mkTitleCand (b : Block) : TitleCand :=
  ⟨pyStrip b.text, b.font_size, b.is_bold, b.y_position, 1⟩

/-- The first-page block loop of `extract_title` (source lines 59–79),
with its three skip tests in source order. -/
def titleLoop (avg : ℚ) : List Block → List TitleCand
  | [] => []
  | b :: bs =>
    if b.font_size < avg then titleLoop avg bs
    else
      let text := pyStrip b.text
      if text.length < 3 ∨ 200 < text.length then titleLoop avg bs
      else if _is_likely_header_footer text then titleLoop avg bs
      else mkTitleCand b :: titleLoop avg bs

/-- Comparison for `sort(key=lambda x: (-x['font_size'], x['y_position']))`
(source line 85): descending font size, then ascending `y`. -/
def leTitle (a b : TitleCand) : Bool :=
  decide (b.font_size < a.font_size) ||
    (decide (a.font_size = b.font_size) && decide (a.y_position ≤ b.y_position))

/-- `_clean_title_text` (source lines 360–378): collapse whitespace,
case-insensitively strip the first matching prefix of `title:`,
`document:`, `paper:` (only one), and uppercase a lowercase first letter. -/
def _clean_title_text (title : List Char) : List Char :=
  let t := List.intercalate [' '] (pySplit title)
  let tl := pyLower t
  let t :=
    if (str "title:").isPrefixOf tl then pyStrip (t.drop 6)
    else if (str "document:").isPrefixOf tl then pyStrip (t.drop 9)
    else if (str "paper:").isPrefixOf tl then pyStrip (t.drop 6)
    else t
  match t with
  | [] => []
  | c :: rest => if c.isLower then c.toUpper :: rest else c :: rest

/-- The sentinel title (source lines 49, 82, 93). -/
def untitled : List Char := str "Untitled Document"

/-- Source lines 87–93: take the first (sorted) candidate's text, clean
it, and fall back to the sentinel when nothing is left. -/
def selectTitle (title_candidates : List TitleCand) : List Char :=
  match title_candidates with
  | [] => untitled
  | t :: _ =>
    let title := _clean_title_text t.text
    if title.isEmpty then untitled else title

/-- `extract_title` (source lines 37–93).  The source checks candidate
emptiness before sorting; sorting preserves emptiness, so selecting from
the sorted list is the same computation. -/
def extract_title (pages_data : List Page) : List Char :=
  match pages_data with
  | [] => untitled
  | first_page :: _ =>
    if first_page.text_blocks.isEmpty then untitled
    else
      let doc_stats := _get_doc_stats pages_data
      let title_candidates := titleLoop doc_stats.avg_font_size first_page.text_blocks
      selectTitle (insertSort leTitle title_candidates)

/-! ### Claim-shaped definitions for refinement comparisons -/

/-- The candidate-admission predicate exactly as the spec words it:
trimmed length ≥ 2, trimmed length ≤ 300, not a header/footer, and
score strictly above 0.3. -/
def admissible (doc_stats : DocStats) (b : Block) : Bool :=
  let text := pyStrip b.text
  decide (2 ≤ text.length) && decide (text.length ≤ 300) &&
    !(_is_likely_header_footer text) &&
    decide (3/10 < _calculate_heading_score b doc_stats)

/-- The first page's blocks (the spec's "page-1 fragments"). -/
def pageOneBlocks : List Page → List Block
  | [] => []
  | p :: _ => p.text_blocks

/-- The title candidate pool as the spec words it: page-1 fragments with
`fontSize ≥ avgFontSize`, trimmed length in `[3,200]`, and
`isLikelyHeaderFooter` false. -/
def titlePoolSpec (pages_data : List Page) : List Block :=
  let avg := (_get_doc_stats pages_data).avg_font_size
  (pageOneBlocks pages_data).filter (fun b =>
    decide (avg ≤ b.font_size) &&
      decide (3 ≤ (pyStrip b.text).length) &&
      decide ((pyStrip b.text).length ≤ 200) &&
      !(_is_likely_header_footer (pyStrip b.text)))

/-- The spec's title sort order on blocks: `(-fontSize, y)` ascending,
i.e. largest font first, then topmost. -/
def leTitleBlock (a b : Block) : Bool :=
  decide (b.font_size < a.font_size) ||
    (decide (a.font_size = b.font_size) && decide (a.y_position ≤ b.y_position))

/-- The spec's selection step: the first pool element's text after
cleanup, with the sentinel fallback for an empty cleanup result. -/
def selectTitleFromBlocks (pool_sorted : List Block) : List Char :=
  match pool_sorted with
  | [] => untitled
  | b :: _ =>
    let t := _clean_title_text b.text
    if t.isEmpty then untitled else t

/-- Title selection as the spec words it: filter the pool, return the
sentinel when it is empty, otherwise sort by `(-fontSize, y)`, take the
first element's text, clean it up, and fall back to the sentinel when the
cleanup result is empty.  (The cleanup steps the spec lists are exactly
`_clean_title_text`.) -/
def titleSpec (pages_data : List Page) : List Char :=
  let pool := titlePoolSpec pages_data
  if pool.isEmpty then untitled
  else selectTitleFromBlocks (insertSort leTitleBlock pool)

/-! ### Store-passing model (for the no-mutation claim)

Python passes the page and block dicts by reference, so "the core never
mutates the input blocks" is a statement about the heap.  The definitions
below re-translate `extract_headings` / `extract_title` with an explicit
store of dict cells: pages hold block *addresses*, candidate dicts are
*allocated* (appended) during extraction, and the one mutation of the
source — `heading['level'] = refined_level` at line 278 — becomes an
explicit store write at the candidate's address. -/

/-- A heap cell: either an input block dict or a candidate dict. -/
inductive Cell where
  | blk (b : Block)
  | cand (c : Cand)
deriving DecidableEq

/-- The heap of dicts. -/
abbrev Store := List Cell

/-- A page whose `text_blocks` are addresses into the store. -/
structure PageRef where
  page_number : ℕ
  text_blocks : List ℕ
deriving DecidableEq

/-- Read a block dict from the store (a well-formed input only references
block cells; the fallback value stands for Python's `KeyError`, which
well-formed inputs never reach). -/
def readBlock (s : Store) (a : ℕ) : Block :=
  match s.get? a with
  | some (.blk b) => b
  | _ => ⟨[], 12, false, 0, 0⟩

/-- Read a candidate dict from the store. -/
def readCand (s : Store) (a : ℕ) : Cand :=
  match s.get? a with
  | some (.cand c) => c
  | _ => ⟨[], 0, 0, false, 0, 0, 0, false, false, false, ""⟩

/-- Dereference one page. -/
def interpPage (s : Store) (p : PageRef) : Page :=
  ⟨p.page_number, p.text_blocks.map (readBlock s)⟩

/-- `_extract_page_headings` over the store: reads the blocks, allocates
one fresh candidate cell per admitted block (source lines 161–172), and
returns the candidate addresses. -/
def extractPageSt (stats : DocStats) (page_num : ℕ) :
    List ℕ → Store → List ℕ × Store
  | [], s => ([], s)
  | a :: as, s =>
    let b := readBlock s a
    let text := pyStrip b.text
    if text.length < 2 then extractPageSt stats page_num as s
    else if _is_likely_header_footer text then extractPageSt stats page_num as s
    else if 300 < text.length then extractPageSt stats page_num as s
    else
      let score := _calculate_heading_score b stats
      if score > 3/10 then
        let r := extractPageSt stats page_num as
          (s ++ [Cell.cand (mkCand page_num b score)])
        (s.length :: r.1, r.2)
      else extractPageSt stats page_num as s

/-- The page loop of `extract_headings` (source lines 115–117) over the store. -/
def collectSt (stats : DocStats) : List PageRef → Store → List ℕ × Store
  | [], s => ([], s)
  | p :: ps, s =>
    let r1 := extractPageSt stats p.page_number p.text_blocks s
    let r2 := collectSt stats ps r1.2
    (r1.1 ++ r2.1, r2.2)

/-- The level-assignment loop of `_classify_headings` (source lines
262–279) over the store: `heading['level'] = refined_level` is a store
write at the candidate's address. -/
def writeLevels (size_to_level : List (ℚ × String)) :
    List ℕ → Store → List ℕ × Store
  | [], s => ([], s)
  | a :: as, s =>
    let c := readCand s a
    let lvl := refineLevel (pyStrip c.text) (lookupLevel size_to_level c.font_size)
    let r := writeLevels size_to_level as (s.set a (Cell.cand { c with level := lvl }))
    (a :: r.1, r.2)

/-- `_classify_headings` over the store. -/
def classifySt (addrs : List ℕ) (s : Store) : List ℕ × Store :=
  if addrs.isEmpty then ([], s)
  else
    let sorted := insertSort (fun x y => leFontDesc (readCand s x) (readCand s y)) addrs
    let font_sizes :=
      insertSort leQDesc ((sorted.map (fun a => (readCand s a).font_size)).dedup)
    writeLevels (sizeLevels font_sizes) sorted s

/-- `extract_headings` over the store. -/
def extract_headingsSt (s : Store) (pages_data : List PageRef) :
    List Heading × Store :=
  if pages_data.isEmpty then ([], s)
  else
    let stats := _get_doc_stats (pages_data.map (interpPage s))
    let r1 := collectSt stats pages_data s
    let r2 := classifySt r1.1 r1.2
    let sorted2 := insertSort (fun x y => lePageY (readCand r2.2 x) (readCand r2.2 y)) r2.1
    (sorted2.map (fun a => projectHeading (readCand r2.2 a)), r2.2)

/-- `extract_title` over the store: the source only reads blocks and
builds fresh local candidate dicts (lines 59–93), so the call leaves the
store exactly as it was. -/
def extract_titleSt (s : Store) (pages_data : List PageRef) :
    List Char × Store :=
  (extract_title (pages_data.map (interpPage s)), s)

/-! ### Concrete inputs for counterexamples and witnesses -/

/-- A 201-character trimmed text: 200 `z`s and a final period. -/
def exLongText : List Char := List.replicate 200 'z' ++ ['.']

/-- A block whose only firing score term is the −0.20 long-text penalty:
font below average, not bold, off the left margin, no pattern, no keyword,
not title case, not upper case, ends with a period. -/
def exLongBlock : Block := ⟨exLongText, 10, false, 150, 0⟩

/-- Document statistics with the default average font size. -/
def exStats12 : DocStats := ⟨12, none, none, none⟩

/-- Page-1 block discovered first: smaller font, same `(page, y)` as the next. -/
def exIntro : Block := ⟨str "Introduction", 20, true, 50, 100⟩

/-- Page-1 block discovered second: larger font, same `(page, y)`. -/
def exBackground : Block := ⟨str "Background", 24, true, 50, 100⟩

/-- One page holding the two tied blocks, in discovery order. -/
def exPagesTie : List Page := [⟨1, [exIntro, exBackground]⟩]

/-- Candidate with a three-level numeric prefix, font size 20. -/
def exDetail : Cand := mkCand 1 ⟨str "1.1.1 Detail", 20, true, 50, 120⟩ (9/10)

/-- Candidate without numbering, the same font size 20 (so both tie for
font rank 0). -/
def exOverview : Cand := mkCand 1 ⟨str "Overview", 20, true, 50, 200⟩ (9/10)

/-! ### Lemmas about the stable insertion sort -/

lemma mem_insertOrd {α : Type} (le : α → α → Bool) (a x : α) :
    ∀ l : List α, x ∈ insertOrd le a l ↔ x = a ∨ x ∈ l := by
  intro l
  induction l with
  | nil => simp [insertOrd]
  | cons b t ih =>
    by_cases h : le a b <;> simp [insertOrd, h, ih] <;> try tauto

lemma mem_insertSort {α : Type} (le : α → α → Bool) (x : α) :
    ∀ l : List α, x ∈ insertSort le l ↔ x ∈ l := by
  intro l
  induction l with
  | nil => simp [insertSort]
  | cons b t ih => simp [insertSort, mem_insertOrd, ih]

lemma insertOrd_pairwise {α : Type} (le : α → α → Bool)
    (htrans : ∀ a b c, le a b = true → le b c = true → le a c = true)
    (htot : ∀ a b, le a b = true ∨ le b a = true) (a : α) :
    ∀ l : List α, List.Pairwise (fun x y => le x y = true) l →
      List.Pairwise (fun x y => le x y = true) (insertOrd le a l) := by
  intro l
  induction l with
  | nil => simp [insertOrd]
  | cons b t ih =>
    intro hp
    rcases List.pairwise_cons.1 hp with ⟨hb, ht⟩
    by_cases h : le a b
    · rw [insertOrd, if_pos h]
      refine List.pairwise_cons.2 ⟨?_, hp⟩
      intro x hx
      rcases List.mem_cons.1 hx with rfl | hx
      · exact h
      · exact htrans a b x h (hb x hx)
    · rw [insertOrd, if_neg h]
      refine List.pairwise_cons.2 ⟨?_, ih ht⟩
      intro x hx
      rcases (mem_insertOrd le a x t).1 hx with hxa | hx
      · rw [hxa]
        rcases htot a b with h' | h'
        · exact absurd h' h
        · exact h'
      · exact hb x hx

lemma insertSort_pairwise {α : Type} (le : α → α → Bool)
    (htrans : ∀ a b c, le a b = true → le b c = true → le a c = true)
    (htot : ∀ a b, le a b = true ∨ le b a = true) :
    ∀ l : List α, List.Pairwise (fun x y => le x y = true) (insertSort le l) := by
  intro l
  induction l with
  | nil => simp [insertSort]
  | cons b t ih => exact insertOrd_pairwise le htrans htot b _ ih

lemma insertOrd_map {α β : Type} (f : α → β) (le1 : α → α → Bool)
    (le2 : β → β → Bool) (hc : ∀ a b, le2 (f a) (f b) = le1 a b) (a : α) :
    ∀ l : List α, insertOrd le2 (f a) (l.map f) = (insertOrd le1 a l).map f := by
  intro l
  induction l with
  | nil => simp [insertOrd]
  | cons b t ih =>
    by_cases h : le1 a b
    · simp [insertOrd, hc, h]
    · simp [insertOrd, hc, h, ih]

lemma insertSort_map {α β : Type} (f : α → β) (le1 : α → α → Bool)
    (le2 : β → β → Bool) (hc : ∀ a b, le2 (f a) (f b) = le1 a b) :
    ∀ l : List α, insertSort le2 (l.map f) = (insertSort le1 l).map f := by
  intro l
  induction l with
  | nil => simp [insertSort]
  | cons b t ih =>
    simp only [List.map_cons, insertSort, ih]
    exact insertOrd_map f le1 le2 hc b _

lemma insertSort_eq_nil {α : Type} (le : α → α → Bool) :
    ∀ l : List α, insertSort le l = [] ↔ l = [] := by
  intro l
  cases l with
  | nil => simp [insertSort]
  | cons b t =>
    simp only [insertSort]
    constructor
    · intro h
      have : b ∈ insertOrd le b (insertSort le t) := (mem_insertOrd le b b _).2 (Or.inl rfl)
      rw [h] at this
      cases this
    · intro h
      cases h

/-! ### Order properties of the two heading sort keys -/

lemma leFontDesc_trans (a b c : Cand) :
    leFontDesc a b = true → leFontDesc b c = true → leFontDesc a c = true := by
  simp only [leFontDesc, decide_eq_true_eq]
  intro h1 h2
  exact le_trans h2 h1

lemma leFontDesc_total (a b : Cand) :
    leFontDesc a b = true ∨ leFontDesc b a = true := by
  simp only [leFontDesc, decide_eq_true_eq]
  exact le_total b.font_size a.font_size

lemma lePageY_trans (a b c : Cand) :
    lePageY a b = true → lePageY b c = true → lePageY a c = true := by
  simp only [lePageY, Bool.or_eq_true, Bool.and_eq_true, decide_eq_true_eq]
  rintro (h1 | ⟨h1, h1'⟩) (h2 | ⟨h2, h2'⟩)
  · exact Or.inl (lt_trans h1 h2)
  · exact Or.inl (h2 ▸ h1)
  · exact Or.inl (h1 ▸ h2)
  · exact Or.inr ⟨h1.trans h2, le_trans h1' h2'⟩

lemma lePageY_total (a b : Cand) :
    lePageY a b = true ∨ lePageY b a = true := by
  simp only [lePageY, Bool.or_eq_true, Bool.and_eq_true, decide_eq_true_eq]
  rcases lt_trichotomy a.page b.page with h | h | h
  · exact Or.inl (Or.inl h)
  · rcases le_total a.y_position b.y_position with h' | h'
    · exact Or.inl (Or.inr ⟨h, h'⟩)
    · exact Or.inr (Or.inr ⟨h.symm, h'⟩)
  · exact Or.inr (Or.inl h)

/-- When `a` does not sort weakly before `b`, then `b` sorts weakly before
`a` and their `(page, y)` keys differ. -/
lemma lePageY_not (a b : Cand) (h : lePageY a b = false) :
    lePageY b a = true ∧ ¬(a.page = b.page ∧ a.y_position = b.y_position) := by
  have h1 : ¬ a.page < b.page := by
    intro hlt
    simp [lePageY, hlt] at h
  by_cases he : a.page = b.page
  · have h2 : ¬ a.y_position ≤ b.y_position := by
      intro hy
      simp [lePageY, he, hy] at h
    have hlt := lt_of_not_le h2
    constructor
    · simp only [lePageY, Bool.or_eq_true, Bool.and_eq_true, decide_eq_true_eq]
      exact Or.inr ⟨he.symm, le_of_lt hlt⟩
    · rintro ⟨-, hy⟩
      exact (ne_of_lt hlt) hy.symm
  · have hgt : b.page < a.page := by omega
    constructor
    · simp only [lePageY, Bool.or_eq_true, Bool.and_eq_true, decide_eq_true_eq]
      exact Or.inl hgt
    · rintro ⟨hpe, -⟩
      exact he hpe

/-- The relation the amended ordering claim asserts of the final list:
weakly sorted by `(page, y)`, and on key ties the earlier element has the
weakly larger font size. -/
def relTie (a b : Cand) : Prop :=
  lePageY a b = true ∧
    (a.page = b.page ∧ a.y_position = b.y_position → b.font_size ≤ a.font_size)

lemma insertOrd_relTie (a : Cand) :
    ∀ l : List Cand, List.Pairwise relTie l →
      (∀ x ∈ l, x.font_size ≤ a.font_size) →
      List.Pairwise relTie (insertOrd lePageY a l) := by
  intro l
  induction l with
  | nil => simp [insertOrd, relTie]
  | cons b t ih =>
    intro hp hf
    rcases List.pairwise_cons.1 hp with ⟨hb, ht⟩
    by_cases h : lePageY a b
    · rw [insertOrd, if_pos h]
      refine List.pairwise_cons.2 ⟨?_, hp⟩
      intro x hx
      rcases List.mem_cons.1 hx with hxb | hx
      · rw [hxb]
        exact ⟨h, fun _ => hf b (List.mem_cons_self b t)⟩
      · exact ⟨lePageY_trans a b x h (hb x hx).1, fun _ => hf x (List.mem_cons.2 (Or.inr hx))⟩
    · rw [insertOrd, if_neg h]
      have hn := lePageY_not a b (Bool.of_not_eq_true h)
      refine List.pairwise_cons.2 ⟨?_, ih ht (fun x hx => hf x (List.mem_cons.2 (Or.inr hx)))⟩
      intro x hx
      rcases (mem_insertOrd lePageY a x t).1 hx with hxa | hx
      · rw [hxa]
        exact ⟨hn.1, fun hk => absurd ⟨hk.1.symm, hk.2.symm⟩ hn.2⟩
      · exact hb x hx

lemma insertSort_relTie :
    ∀ l : List Cand,
      List.Pairwise (fun x y => y.font_size ≤ x.font_size) l →
      List.Pairwise relTie (insertSort lePageY l) := by
  intro l
  induction l with
  | nil => simp [insertSort]
  | cons b t ih =>
    intro hp
    rcases List.pairwise_cons.1 hp with ⟨hb, ht⟩
    refine insertOrd_relTie b _ (ih ht) ?_
    intro x hx
    exact hb x ((mem_insertSort lePageY x t).1 hx)

/-! ### Lemmas about classification and candidate extraction -/

lemma sizeLevels_snd (ss : List ℚ) (p : ℚ × String) (hp : p ∈ sizeLevels ss) :
    p.2 = "H1" ∨ p.2 = "H2" ∨ p.2 = "H3" := by
  match ss with
  | [] => simp [sizeLevels] at hp
  | [s0] =>
    simp [sizeLevels] at hp
    simp [hp]
  | [s0, s1] =>
    simp [sizeLevels] at hp
    rcases hp with hp | hp <;> simp [hp]
  | s0 :: s1 :: s2 :: rest =>
    simp [sizeLevels] at hp
    rcases hp with hp | hp | hp | hp
    · simp [hp]
    · simp [hp]
    · simp [hp]
    · rcases hp with ⟨s, -, hs⟩
      simp [← hs]

lemma lookupLevel_cases (m : List (ℚ × String)) (f : ℚ)
    (hm : ∀ p ∈ m, p.2 = "H1" ∨ p.2 = "H2" ∨ p.2 = "H3") :
    lookupLevel m f = "H1" ∨ lookupLevel m f = "H2" ∨ lookupLevel m f = "H3" := by
  induction m with
  | nil => simp [lookupLevel]
  | cons p rest ih =>
    rw [show lookupLevel (p :: rest) f = if f = p.1 then p.2 else lookupLevel rest f from rfl]
    by_cases h : f = p.1
    · rw [if_pos h]
      exact hm p (List.mem_cons_self p rest)
    · rw [if_neg h]
      exact ih (fun q hq => hm q (List.mem_cons.2 (Or.inr hq)))

lemma refineLevel_cases (t : List Char) (base : String)
    (hb : base = "H1" ∨ base = "H2" ∨ base = "H3") :
    refineLevel t base = "H1" ∨ refineLevel t base = "H2" ∨ refineLevel t base = "H3" := by
  unfold refineLevel
  by_cases h1 : matchNum1 t <;> by_cases h2 : matchNum2 t <;>
    by_cases h3 : matchNum3 t <;> simp [h1, h2, h3, hb]

lemma classify_mem (hs : List Cand) (stats : DocStats) (c : Cand)
    (hc : c ∈ _classify_headings hs stats) :
    ∃ h ∈ hs, c.text = h.text ∧ c.page = h.page ∧ c.font_size = h.font_size ∧
      c.y_position = h.y_position ∧
      (c.level = "H1" ∨ c.level = "H2" ∨ c.level = "H3") := by
  unfold _classify_headings at hc
  by_cases hemp : hs.isEmpty
  · rw [if_pos hemp] at hc
    cases hc
  · rw [if_neg hemp] at hc
    simp only [List.mem_map] at hc
    rcases hc with ⟨h, hmem, hceq⟩
    refine ⟨h, (mem_insertSort leFontDesc h hs).1 hmem, ?_⟩
    rw [← hceq]
    refine ⟨rfl, rfl, rfl, rfl, ?_⟩
    refine refineLevel_cases _ _ ?_
    refine lookupLevel_cases _ _ ?_
    intro p hp
    exact sizeLevels_snd _ p hp

lemma classify_pairwise_font (hs : List Cand) (stats : DocStats) :
    List.Pairwise (fun a b => b.font_size ≤ a.font_size)
      (_classify_headings hs stats) := by
  unfold _classify_headings
  by_cases hemp : hs.isEmpty
  · simp [hemp]
  · rw [if_neg hemp]
    have hp := insertSort_pairwise leFontDesc leFontDesc_trans leFontDesc_total hs
    refine List.Pairwise.map _ ?_ hp
    intro a b hab
    simpa [leFontDesc] using hab

lemma extractLoop_eq (stats : DocStats) (n : ℕ) :
    ∀ bs : List Block, extractBlocksLoop stats n bs =
      (bs.filter (admissible stats)).map
        (fun b => mkCand n b (_calculate_heading_score b stats)) := by
  intro bs
  induction bs with
  | nil => rfl
  | cons b bs ih =>
    by_cases h1 : (pyStrip b.text).length < 2
    · have hp : admissible stats b = false := by
        simp only [admissible, Bool.and_eq_false_iff, decide_eq_false_iff_not]
        left; left; left; omega
      simp [extractBlocksLoop, h1, List.filter_cons, hp, ih]
    · by_cases h2 : _is_likely_header_footer (pyStrip b.text)
      · have hp : admissible stats b = false := by
          simp only [admissible, Bool.and_eq_false_iff, decide_eq_false_iff_not]
          left; right; simp [h2]
        simp [extractBlocksLoop, h1, h2, List.filter_cons, hp, ih]
      · by_cases h3 : 300 < (pyStrip b.text).length
        · have hp : admissible stats b = false := by
            simp only [admissible, Bool.and_eq_false_iff, decide_eq_false_iff_not]
            left; left; right; omega
          simp [extractBlocksLoop, h1, h2, h3, List.filter_cons, hp, ih]
        · by_cases h4 : 3/10 < _calculate_heading_score b stats
          · have hp : admissible stats b = true := by
              simp only [admissible, Bool.and_eq_true, decide_eq_true_eq]
              exact ⟨⟨⟨by omega, by omega⟩, by simp [h2]⟩, h4⟩
            simp [extractBlocksLoop, h1, h2, h3, h4, List.filter_cons, hp, ih]
          · have hp : admissible stats b = false := by
              simp only [admissible, Bool.and_eq_false_iff, decide_eq_false_iff_not]
              right; exact h4
            simp [extractBlocksLoop, h1, h2, h3, h4, List.filter_cons, hp, ih]

/-! ### Lemmas about stripping and splitting -/

lemma dropWhile_dropWhile (p : Char → Bool) :
    ∀ l : List Char, (l.dropWhile p).dropWhile p = l.dropWhile p := by
  intro l
  induction l with
  | nil => rfl
  | cons c cs ih =>
    by_cases h : p c
    · simp [List.dropWhile_cons, h, ih]
    · simp [List.dropWhile_cons, h]

lemma dropWhile_getLast? (p : Char → Bool) :
    ∀ l : List Char, l.dropWhile p ≠ [] →
      (l.dropWhile p).getLast? = l.getLast? := by
  intro l
  induction l with
  | nil => intro h; simp [List.dropWhile] at h
  | cons c cs ih =>
    intro h
    by_cases hc : p c
    · rw [List.dropWhile_cons, if_pos hc] at h ⊢
      have hcs : cs ≠ [] := by
        intro he
        rw [he] at h
        simp [List.dropWhile] at h
      rw [ih h]
      cases cs with
      | nil => exact absurd rfl hcs
      | cons d ds => simp [List.getLast?_cons_cons]
    · rw [List.dropWhile_cons, if_neg hc]

lemma head?_dropWhile (p : Char → Bool) :
    ∀ (l : List Char) (c : Char), (l.dropWhile p).head? = some c → p c = false := by
  intro l
  induction l with
  | nil => intro c h; simp [List.dropWhile] at h
  | cons d ds ih =>
    intro c h
    by_cases hd : p d
    · rw [List.dropWhile_cons, if_pos hd] at h
      exact ih c h
    · rw [List.dropWhile_cons, if_neg hd] at h
      simp at h
      rw [← h]
      exact Bool.eq_false_iff.2 hd

lemma dropWhile_eq_self_of_head (p : Char → Bool) (l : List Char)
    (h : ∀ c, l.head? = some c → p c = false) : l.dropWhile p = l := by
  cases l with
  | nil => rfl
  | cons c cs =>
    have := h c rfl
    simp [List.dropWhile_cons, this]

lemma pyStrip_dropWhile (x : List Char) :
    (pyStrip x).dropWhile pyIsSpace = pyStrip x := by
  unfold pyStrip
  apply dropWhile_eq_self_of_head
  intro c hc
  by_cases hnil : (((x.dropWhile pyIsSpace).reverse).dropWhile pyIsSpace) = []
  · rw [hnil] at hc
    simp at hc
  · rw [List.head?_reverse] at hc
    rw [dropWhile_getLast? pyIsSpace _ hnil] at hc
    rw [List.getLast?_reverse] at hc
    exact head?_dropWhile pyIsSpace _ c hc

lemma pyStrip_reverse_dropWhile (x : List Char) :
    (pyStrip x).reverse.dropWhile pyIsSpace = (pyStrip x).reverse := by
  unfold pyStrip
  rw [List.reverse_reverse]
  exact dropWhile_dropWhile pyIsSpace _

lemma pyStrip_idem (x : List Char) : pyStrip (pyStrip x) = pyStrip x := by
  conv_lhs => rw [pyStrip]
  rw [pyStrip_dropWhile x, pyStrip_reverse_dropWhile x, List.reverse_reverse]

lemma pySplitGo_allws (w : List Char) (hw : ∀ c ∈ w, pyIsSpace c = true) :
    ∀ acc, pySplitGo w acc = if acc.isEmpty then [] else [acc.reverse] := by
  induction w with
  | nil => intro acc; rfl
  | cons c cs ih =>
    intro acc
    have hc := hw c (List.mem_cons_self c cs)
    have ih' := ih (fun d hd => hw d (List.mem_cons.2 (Or.inr hd)))
    by_cases ha : acc.isEmpty
    · simp only [pySplitGo, hc, if_pos ha, if_true, ih']
      simp [ha]
    · simp only [pySplitGo, hc, if_neg ha, if_true, ih']
      simp [ha]

lemma pySplitGo_append_allws (w : List Char) (hw : ∀ c ∈ w, pyIsSpace c = true) :
    ∀ (s : List Char) (acc : List Char), pySplitGo (s ++ w) acc = pySplitGo s acc := by
  intro s
  induction s with
  | nil =>
    intro acc
    rw [List.nil_append, pySplitGo_allws w hw acc]
    rfl
  | cons c cs ih =>
    intro acc
    simp only [List.cons_append, pySplitGo, List.append_eq, ih]

lemma pySplit_dropWhile_ws (s : List Char) :
    pySplit (s.dropWhile pyIsSpace) = pySplit s := by
  induction s with
  | nil => rfl
  | cons c cs ih =>
    by_cases hc : pyIsSpace c
    · rw [List.dropWhile_cons, if_pos hc, ih]
      simp [pySplit, pySplitGo, hc]
    · rw [List.dropWhile_cons, if_neg hc]

lemma pyStrip_decomp (s : List Char) :
    ∃ w : List Char, s.dropWhile pyIsSpace = pyStrip s ++ w ∧
      ∀ c ∈ w, pyIsSpace c = true := by
  refine ⟨((s.dropWhile pyIsSpace).reverse.takeWhile pyIsSpace).reverse, ?_, ?_⟩
  · conv_lhs => rw [← List.reverse_reverse (s.dropWhile pyIsSpace)]
    conv_lhs =>
      rw [← List.takeWhile_append_dropWhile (p := pyIsSpace)
        (l := (s.dropWhile pyIsSpace).reverse)]
    rw [List.reverse_append]
    rfl
  · intro c hc
    rw [List.mem_reverse] at hc
    exact List.mem_takeWhile_imp hc

lemma pySplit_pyStrip (s : List Char) : pySplit (pyStrip s) = pySplit s := by
  obtain ⟨w, hdec, hw⟩ := pyStrip_decomp s
  have h1 : pySplit (s.dropWhile pyIsSpace) = pySplit s := pySplit_dropWhile_ws s
  rw [← h1, hdec]
  unfold pySplit
  rw [pySplitGo_append_allws w hw]

lemma clean_title_strip (t : List Char) :
    _clean_title_text (pyStrip t) = _clean_title_text t := by
  unfold _clean_title_text
  rw [pySplit_pyStrip]

/-! ### Lemmas about title selection -/

lemma titleLoop_eq (avg : ℚ) :
    ∀ bs : List Block, titleLoop avg bs =
      (bs.filter (fun b =>
        decide (avg ≤ b.font_size) &&
          decide (3 ≤ (pyStrip b.text).length) &&
          decide ((pyStrip b.text).length ≤ 200) &&
          !(_is_likely_header_footer (pyStrip b.text)))).map mkTitleCand := by
  intro bs
  induction bs with
  | nil => rfl
  | cons b bs ih =>
    by_cases h1 : b.font_size < avg
    · have hp : ¬ avg ≤ b.font_size := not_le_of_lt h1
      simp [titleLoop, h1, List.filter_cons, hp, ih]
    · by_cases h2 : (pyStrip b.text).length < 3 ∨ 200 < (pyStrip b.text).length
      · have hp : (decide (avg ≤ b.font_size) &&
            decide (3 ≤ (pyStrip b.text).length) &&
            decide ((pyStrip b.text).length ≤ 200) &&
            !(_is_likely_header_footer (pyStrip b.text))) = false := by
          simp only [Bool.and_eq_false_iff, decide_eq_false_iff_not]
          rcases h2 with h2 | h2
          · left; left; right; omega
          · left; right; omega
        simp [titleLoop, h1, h2, List.filter_cons, hp, ih]
      · by_cases h3 : _is_likely_header_footer (pyStrip b.text)
        · have hp : (decide (avg ≤ b.font_size) &&
              decide (3 ≤ (pyStrip b.text).length) &&
              decide ((pyStrip b.text).length ≤ 200) &&
              !(_is_likely_header_footer (pyStrip b.text))) = false := by
            simp [h3]
          simp [titleLoop, h1, h2, h3, List.filter_cons, hp, ih]
        · have hp : (decide (avg ≤ b.font_size) &&
              decide (3 ≤ (pyStrip b.text).length) &&
              decide ((pyStrip b.text).length ≤ 200) &&
              !(_is_likely_header_footer (pyStrip b.text))) = true := by
            push_neg at h2
            simp only [Bool.and_eq_true, decide_eq_true_eq, Bool.not_eq_true']
            exact ⟨⟨⟨le_of_not_lt h1, by omega⟩, by omega⟩, Bool.eq_false_iff.2 h3⟩
          rw [titleLoop, if_neg h1, if_neg h2, if_neg h3]
          simp only [List.filter_cons, hp, if_true, List.map_cons, ih]

lemma leTitle_mk (a b : Block) :
    leTitle (mkTitleCand a) (mkTitleCand b) = leTitleBlock a b := rfl

/-! ### Lemmas about the store-passing model -/

lemma take_set_of_le :
    ∀ (l : Store) (i n : ℕ) (x : Cell), n ≤ i → (l.set i x).take n = l.take n := by
  intro l
  induction l with
  | nil => intro i n x _; rfl
  | cons c cs ih =>
    intro i n x h
    cases i with
    | zero =>
      have : n = 0 := Nat.le_zero.1 h
      rw [this]
      rfl
    | succ i =>
      cases n with
      | zero => rfl
      | succ n =>
        simp only [List.set_cons_succ, List.take_succ_cons]
        rw [ih i n x (Nat.succ_le_succ_iff.1 h)]

lemma extractPageSt_ext (stats : DocStats) (n : ℕ) :
    ∀ (as : List ℕ) (s : Store),
      (∃ ext, (extractPageSt stats n as s).2 = s ++ ext) ∧
        ∀ a ∈ (extractPageSt stats n as s).1, s.length ≤ a := by
  intro as
  induction as with
  | nil => intro s; exact ⟨⟨[], by simp [extractPageSt]⟩, by simp [extractPageSt]⟩
  | cons a as ih =>
    intro s
    rw [extractPageSt]
    by_cases h1 : (pyStrip (readBlock s a).text).length < 2
    · simpa [h1] using ih s
    · by_cases h2 : _is_likely_header_footer (pyStrip (readBlock s a).text)
      · simpa [h1, h2] using ih s
      · by_cases h3 : 300 < (pyStrip (readBlock s a).text).length
        · simpa [h1, h2, h3] using ih s
        · by_cases h4 : _calculate_heading_score (readBlock s a) stats > 3/10
          · obtain ⟨⟨ext, hext⟩, hbound⟩ :=
              ih (s ++ [Cell.cand (mkCand n (readBlock s a)
                (_calculate_heading_score (readBlock s a) stats))])
            constructor
            · refine ⟨Cell.cand (mkCand n (readBlock s a)
                (_calculate_heading_score (readBlock s a) stats)) :: ext, ?_⟩
              simp only [h1, h2, h3, h4, if_true, if_false]
              rw [hext]
              simp
            · intro x hx
              simp only [h1, h2, h3, h4, if_true, if_false] at hx
              rcases List.mem_cons.1 hx with hxa | hx
              · rw [hxa]
              · have := hbound x hx
                simp at this
                omega
          · simpa [h1, h2, h3, h4] using ih s

lemma collectSt_ext (stats : DocStats) :
    ∀ (ps : List PageRef) (s : Store),
      (∃ ext, (collectSt stats ps s).2 = s ++ ext) ∧
        ∀ a ∈ (collectSt stats ps s).1, s.length ≤ a := by
  intro ps
  induction ps with
  | nil => intro s; exact ⟨⟨[], by simp [collectSt]⟩, by simp [collectSt]⟩
  | cons p ps ih =>
    intro s
    rw [collectSt]
    obtain ⟨⟨e1, he1⟩, hb1⟩ := extractPageSt_ext stats p.page_number p.text_blocks s
    obtain ⟨⟨e2, he2⟩, hb2⟩ := ih (extractPageSt stats p.page_number p.text_blocks s).2
    constructor
    · refine ⟨e1 ++ e2, ?_⟩
      simp only []
      rw [he2, he1, List.append_assoc]
    · intro x hx
      simp only [List.mem_append] at hx
      rcases hx with hx | hx
      · exact hb1 x hx
      · have := hb2 x hx
        rw [he1] at this
        simp at this
        omega

lemma writeLevels_take (stl : List (ℚ × String)) :
    ∀ (addrs : List ℕ) (s : Store) (n : ℕ), (∀ a ∈ addrs, n ≤ a) →
      ((writeLevels stl addrs s).2).take n = s.take n := by
  intro addrs
  induction addrs with
  | nil => intro s n _; rfl
  | cons a as ih =>
    intro s n h
    rw [writeLevels]
    simp only []
    rw [ih _ n (fun x hx => h x (List.mem_cons.2 (Or.inr hx)))]
    exact take_set_of_le s a n _ (h a (List.mem_cons_self a as))

lemma classifySt_take (addrs : List ℕ) (s : Store) (n : ℕ)
    (h : ∀ a ∈ addrs, n ≤ a) :
    ((classifySt addrs s).2).take n = s.take n := by
  unfold classifySt
  by_cases hemp : addrs.isEmpty
  · rw [if_pos hemp]
  · rw [if_neg hemp]
    apply writeLevels_take
    intro a ha
    exact h a ((mem_insertSort _ a addrs).1 ha)

/-! ### Remaining support lemmas -/

lemma sortedClassified_relTie (pages_data : List Page) :
    List.Pairwise relTie (sortedClassified pages_data) := by
  unfold sortedClassified
  exact insertSort_relTie _ (classify_pairwise_font _ _)

lemma extract_headings_eq (pages_data : List Page) :
    extract_headings pages_data = (sortedClassified pages_data).map projectHeading := by
  unfold extract_headings
  by_cases h : pages_data.isEmpty
  · rw [if_pos h]
    have he : pages_data = [] := List.isEmpty_iff.1 h
    subst he
    rfl
  · rw [if_neg h]

lemma allCandidates_nil (pages_data : List Page) (stats : DocStats)
    (h : ∀ p ∈ pages_data, p.text_blocks = []) :
    allCandidates pages_data stats = [] := by
  induction pages_data with
  | nil => rfl
  | cons p rest ih =>
    unfold allCandidates
    rw [List.flatMap_cons]
    have hp := h p (List.mem_cons_self p rest)
    have h1 : _extract_page_headings p stats = [] := by
      unfold _extract_page_headings
      rw [hp]
      rfl
    rw [h1, List.nil_append]
    exact ih (fun q hq => h q (List.mem_cons.2 (Or.inr hq)))

lemma page_headings_mem (p : Page) (stats : DocStats) (c : Cand)
    (hc : c ∈ _extract_page_headings p stats) :
    c.page = p.page_number ∧ 2 ≤ c.text.length ∧ pyStrip c.text = c.text := by
  unfold _extract_page_headings at hc
  rw [extractLoop_eq] at hc
  rcases List.mem_map.1 hc with ⟨b, hb, hbc⟩
  have hadm := List.of_mem_filter hb
  simp only [admissible, Bool.and_eq_true, decide_eq_true_eq] at hadm
  rw [← hbc]
  exact ⟨rfl, hadm.1.1.1, pyStrip_idem b.text⟩

lemma munch1_eq_some (p : Char → Bool) (l r : List Char)
    (h : munch1 p l = some r) : ∃ c cs, l = c :: cs ∧ p c = true := by
  cases l with
  | nil => simp [munch1] at h
  | cons c cs =>
    by_cases hc : p c
    · exact ⟨c, cs, rfl, hc⟩
    · simp [munch1, hc] at h

lemma space_not_digit (c : Char) (h : pyIsSpace c = true) : c.isDigit = false := by
  simp only [pyIsSpace, Char.isWhitespace, Bool.or_eq_true, decide_eq_true_eq,
    beq_iff_eq] at h
  rcases h with ((((h | h) | h) | h) | h) | h
  · subst h; decide
  · subst h; decide
  · subst h; decide
  · subst h; decide
  · have he : c = '\x0b' := Char.ext (h.trans (by decide))
    subst he; decide
  · have he : c = '\x0c' := Char.ext (h.trans (by decide))
    subst he; decide

lemma headIsWs_of_munch_digit (x r : List Char)
    (h : munch1 Char.isDigit x = some r) : headIsWs x = false := by
  obtain ⟨c, cs, rfl, hc⟩ := munch1_eq_some _ _ _ h
  simp only [headIsWs]
  by_contra hws
  rw [space_not_digit c (Bool.of_not_eq_false hws)] at hc
  cases hc

lemma matchNum2_chars (t : List Char) (h : matchNum2 t = true) :
    ∃ r r2, munch1 Char.isDigit t = some ('.' :: r) ∧
      munch1 Char.isDigit r = some r2 ∧ optDotWs r2 = true := by
  unfold matchNum2 at h
  split at h
  · rename_i r heq
    split at h
    · simp at h
    · rename_i r2 heq2
      exact ⟨r, r2, heq, heq2, h⟩
  · simp at h

lemma matchNum3_chars (t : List Char) (h : matchNum3 t = true) :
    ∃ r r2 r3, munch1 Char.isDigit t = some ('.' :: r) ∧
      munch1 Char.isDigit r = some ('.' :: r2) ∧
      munch1 Char.isDigit r2 = some r3 ∧ optDotWs r3 = true := by
  unfold matchNum3 at h
  split at h
  · rename_i r heq
    split at h
    · rename_i r2 heq2
      split at h
      · simp at h
      · rename_i r3 heq3
        exact ⟨r, r2, r3, heq, heq2, heq3, h⟩
    · simp at h
  · simp at h

lemma matchNum2_not_num1 (t : List Char) (h : matchNum2 t = true) :
    matchNum1 t = false := by
  obtain ⟨r, r2, h1, h2, -⟩ := matchNum2_chars t h
  simp only [matchNum1, h1]
  exact headIsWs_of_munch_digit r r2 h2

lemma matchNum3_not_num1 (t : List Char) (h : matchNum3 t = true) :
    matchNum1 t = false := by
  obtain ⟨r, r2, r3, h1, h2, -, -⟩ := matchNum3_chars t h
  simp only [matchNum1, h1]
  exact headIsWs_of_munch_digit r _ h2

lemma matchNum3_not_num2 (t : List Char) (h : matchNum3 t = true) :
    matchNum2 t = false := by
  obtain ⟨r, r2, r3, h1, h2, h3, -⟩ := matchNum3_chars t h
  simp only [matchNum2, h1, h2]
  exact headIsWs_of_munch_digit r2 r3 h3

lemma selectTitle_map (l : List Block) :
    selectTitle (l.map mkTitleCand) = selectTitleFromBlocks l := by
  cases l with
  | nil => rfl
  | cons b bs =>
    simp only [List.map_cons, selectTitle, selectTitleFromBlocks, mkTitleCand]
    rw [clean_title_strip]

/-! ### Claim theorems -/

/-- C1.  The claim says the heading score always lies in `[0,1]` (the
scorer's own docstring says the same).  The code only clamps from above:
on a block whose trimmed text exceeds 200 characters and for which no
bonus term fires, the −0.20 penalty drives the returned score to −1/5,
strictly below 0.  This theorem evaluates the scorer at that failing
input. -/
theorem c1_score_below_zero :
    _calculate_heading_score exLongBlock exStats12 = -(1/5) ∧
      _calculate_heading_score exLongBlock exStats12 < 0 := by
  have h : _calculate_heading_score exLongBlock exStats12 = -(1/5) := by
    with_unfolding_all rfl
  refine ⟨h, ?_⟩
  rw [h]
  norm_num

/-- C2 (counterexample).  The claim says `(page, y)` ties keep discovery
order.  On a page whose two admitted blocks share `(page, y) = (1, 100)`,
discovery order is `Introduction` (font 20) then `Background` (font 24),
but the outline lists `Background` first: the classification pass
pre-sorts by descending font size, and the final stable sort keeps that
order on ties. -/
theorem c2_tie_counterexample :
    extract_headings exPagesTie =
      [⟨"H1", str "Background", 1⟩, ⟨"H2", str "Introduction", 1⟩] ∧
    exPagesTie = [⟨1, [⟨str "Introduction", 20, true, 50, 100⟩,
      ⟨str "Background", 24, true, 50, 100⟩]⟩] ∧
    extract_headings exPagesTie ≠
      [⟨"H2", str "Introduction", 1⟩, ⟨"H1", str "Background", 1⟩] := by
  have h1 : extract_headings exPagesTie =
      [⟨"H1", str "Background", 1⟩, ⟨"H2", str "Introduction", 1⟩] := by
    with_unfolding_all rfl
  refine ⟨h1, rfl, ?_⟩
  rw [h1]
  decide

/-- C2 (amended).  The outline is the projection of the classified
candidate list sorted by `(page, y)`; that list is weakly sorted by
`(page, y)`, and on exact `(page, y)` ties the earlier element has the
weakly larger font size (font-descending, not discovery order). -/
theorem c2_outline_sorted (pages_data : List Page) :
    extract_headings pages_data = (sortedClassified pages_data).map projectHeading ∧
      List.Pairwise relTie (sortedClassified pages_data) :=
  ⟨extract_headings_eq pages_data, sortedClassified_relTie pages_data⟩

/-- C3.  The claim (like the source's own `# Email addresses` comment)
says any text containing `@` is a likely header/footer.  The code uses
`re.match`, which anchors the pattern `'@'` at position 0, so an email
address that merely contains `@` is not caught. -/
theorem c3_at_sign_not_anchored :
    ('@' ∈ str "user@example.com") ∧
      ¬ (str "user@example.com") = [] ∧
      _is_likely_header_footer (str "user@example.com") = false ∧
      _is_likely_header_footer (str "@home") = true := by
  refine ⟨by decide, by decide, by decide, by decide⟩

/-- C4.  In level classification the numbering override is decisive: a
three-level numeric prefix forces H3, a two-level prefix forces H2, a bare
numeric prefix forces H1, and otherwise the font-rank level is retained —
although the source checks the bare pattern first, the three patterns are
mutually exclusive, so depth wins exactly as the spec says.  The final
conjunct runs `_classify_headings` on two candidates tied for font rank 0:
`"1.1.1 Detail"` classifies H3 while its tie partner keeps H1. -/
theorem c4_numbering_override (t : List Char) (base : String) :
    (matchNum3 t = true → refineLevel t base = "H3") ∧
    (matchNum2 t = true → refineLevel t base = "H2") ∧
    (matchNum1 t = true → refineLevel t base = "H1") ∧
    (matchNum1 t = false → matchNum2 t = false → matchNum3 t = false →
      refineLevel t base = base) ∧
    (_classify_headings [exDetail, exOverview] exStats12).map
      (fun c => (c.text, c.level)) =
      [(str "1.1.1 Detail", "H3"), (str "Overview", "H1")] := by
  refine ⟨?_, ?_, ?_, ?_, ?_⟩
  · intro h3
    rw [refineLevel, if_neg, if_neg, if_pos h3]
    · rw [matchNum3_not_num2 t h3]
      simp
    · rw [matchNum3_not_num1 t h3]
      simp
  · intro h2
    rw [refineLevel, if_neg, if_pos h2]
    rw [matchNum2_not_num1 t h2]
    simp
  · intro h1
    rw [refineLevel, if_pos h1]
  · intro h1 h2 h3
    simp [refineLevel, h1, h2, h3]
  · with_unfolding_all rfl

/-- C4 witness: the theorem applied at concrete texts of each numbering
depth, discharging every hypothesis by evaluation. -/
theorem c4_numbering_override_witness :
    refineLevel (str "1.1.1 Detail") "H1" = "H3" ∧
    refineLevel (str "2.3 Topic") "H1" = "H2" ∧
    refineLevel (str "4. Chapter") "H3" = "H1" ∧
    refineLevel (str "Overview") "H2" = "H2" :=
  ⟨(c4_numbering_override (str "1.1.1 Detail") "H1").1 (by decide),
   (c4_numbering_override (str "2.3 Topic") "H1").2.1 (by decide),
   (c4_numbering_override (str "4. Chapter") "H3").2.2.1 (by decide),
   (c4_numbering_override (str "Overview") "H2").2.2.2.1
     (by decide) (by decide) (by decide)⟩

/-- C5.  A fragment becomes a heading candidate exactly when its trimmed
length is at least 2 and at most 300, it is not a likely header/footer,
and its heading score is strictly above 0.3; failing fragments are
silently dropped (the extraction is a total filter-and-map, no error
path). -/
theorem c5_candidate_admission (page : Page) (doc_stats : DocStats) :
    _extract_page_headings page doc_stats =
      (page.text_blocks.filter (admissible doc_stats)).map
        (fun b => mkCand page.page_number b (_calculate_heading_score b doc_stats)) :=
  extractLoop_eq doc_stats page.page_number page.text_blocks

/-- C7.  An empty document — no pages, or every page without fragments —
yields the sentinel title and an empty outline, with no error path. -/
theorem c7_empty_document (pages_data : List Page)
    (h : pages_data = [] ∨ ∀ p ∈ pages_data, p.text_blocks = []) :
    extract_title pages_data = untitled ∧ extract_headings pages_data = [] := by
  rcases h with rfl | hall
  · exact ⟨rfl, rfl⟩
  · cases pages_data with
    | nil => exact ⟨rfl, rfl⟩
    | cons p rest =>
      have hp0 : p.text_blocks = [] := hall p (List.mem_cons_self p rest)
      have hcand : ∀ stats, allCandidates (p :: rest) stats = [] :=
        fun stats => allCandidates_nil _ stats hall
      constructor
      · simp [extract_title, hp0]
      · rw [extract_headings_eq]
        simp only [sortedClassified, hcand]
        rfl

/-- C7 witness: the theorem applied to the empty page list. -/
theorem c7_empty_document_witness :
    extract_title [] = untitled ∧ extract_headings [] = [] :=
  c7_empty_document [] (Or.inl rfl)

/-- C8.  On valid input (all page numbers at least 1) every produced
heading has level H1, H2 or H3, a page number at least 1, and non-empty
trimmed text. -/
theorem c8_outline_fields (pages_data : List Page)
    (hp : ∀ p ∈ pages_data, 1 ≤ p.page_number) :
    ∀ h ∈ extract_headings pages_data,
      (h.level = "H1" ∨ h.level = "H2" ∨ h.level = "H3") ∧
        1 ≤ h.page ∧ pyStrip h.text ≠ [] := by
  intro h hmem
  rw [extract_headings_eq] at hmem
  rcases List.mem_map.1 hmem with ⟨c, hcmem, rfl⟩
  unfold sortedClassified at hcmem
  have hcm := (mem_insertSort lePageY c _).1 hcmem
  obtain ⟨c0, hc0mem, htext, hpage, -, -, hlvl⟩ := classify_mem _ _ _ hcm
  unfold allCandidates at hc0mem
  rcases List.mem_flatMap.1 hc0mem with ⟨p, hpmem, hcp⟩
  obtain ⟨hcpage, hclen, hcstrip⟩ := page_headings_mem p _ c0 hcp
  refine ⟨hlvl, ?_, ?_⟩
  · show 1 ≤ c.page
    rw [hpage, hcpage]
    exact hp p hpmem
  · show pyStrip c.text ≠ []
    rw [htext, hcstrip]
    intro hnil
    rw [hnil] at hclen
    simp at hclen

/-- C8 witness: the theorem applied to the concrete two-block page, read
off at the first produced heading. -/
theorem c8_outline_fields_witness :
    (("H1" = "H1" ∨ "H1" = "H2" ∨ "H1" = "H3") ∧
      1 ≤ 1 ∧ pyStrip (str "Background") ≠ []) := by
  have hmem : (⟨"H1", str "Background", 1⟩ : Heading) ∈ extract_headings exPagesTie := by
    have h : extract_headings exPagesTie =
        [⟨"H1", str "Background", 1⟩, ⟨"H2", str "Introduction", 1⟩] := by
      with_unfolding_all rfl
    rw [h]
    exact List.mem_cons_self _ _
  exact c8_outline_fields exPagesTie (by decide) _ hmem

/-- C9.  Neither core entry point mutates the input pages or blocks.  In
the store-passing model, `extract_title` returns the store untouched, and
`extract_headings` — whose only write is the level assignment on the
freshly allocated candidate cells — leaves every pre-existing cell (in
particular every input block) unchanged. -/
theorem c9_no_input_mutation (s : Store) (pages_data : List PageRef) :
    (extract_titleSt s pages_data).2 = s ∧
      ((extract_headingsSt s pages_data).2).take s.length = s := by
  refine ⟨rfl, ?_⟩
  unfold extract_headingsSt
  by_cases h : pages_data.isEmpty
  · rw [if_pos h]
    exact List.take_length s
  · rw [if_neg h]
    obtain ⟨⟨ext, hext⟩, hbound⟩ :=
      collectSt_ext (_get_doc_stats (pages_data.map (interpPage s))) pages_data s
    simp only []
    rw [classifySt_take _ _ s.length hbound, hext]
    exact List.take_left s ext

/-- C6.  `extract_title` computes exactly the spec's description: pool of
page-1 blocks with font at least the document average, trimmed length in
`[3,200]`, not header/footer; sentinel when the pool is empty; otherwise
the cleanup of the text of the first element under the `(-fontSize, y)`
order, with the sentinel fallback for an empty cleanup result. -/
theorem c6_title_refinement (pages_data : List Page) :
    extract_title pages_data = titleSpec pages_data := by
  cases pages_data with
  | nil => rfl
  | cons p rest =>
    by_cases hemp : p.text_blocks.isEmpty
    · have hb : p.text_blocks = [] := List.isEmpty_iff.1 hemp
      simp [extract_title, titleSpec, titlePoolSpec, pageOneBlocks, hemp, hb]
    · simp only [extract_title, if_neg hemp, titleSpec, titlePoolSpec, pageOneBlocks,
        titleLoop_eq, insertSort_map mkTitleCand leTitleBlock leTitle leTitle_mk,
        selectTitle_map]
      by_cases hpool : (p.text_blocks.filter (fun b =>
          decide ((_get_doc_stats (p :: rest)).avg_font_size ≤ b.font_size) &&
            decide (3 ≤ (pyStrip b.text).length) &&
            decide ((pyStrip b.text).length ≤ 200) &&
            !(_is_likely_header_footer (pyStrip b.text)))).isEmpty
      · rw [if_pos hpool]
        have hnil := List.isEmpty_iff.1 hpool
        rw [hnil]
        rfl
      · rw [if_neg hpool]

/-- C10 (counterexample).  The claim says every text made only of letters
and spaces with length at least 3 matches a heading pattern; but the
all-caps pattern anchors on a letter, so a text starting with a space
matches nothing. -/
theorem c10_space_first_counterexample :
    (str " ab").length = 3 ∧
      (∀ x ∈ str " ab", x.isAlpha = true ∨ x = ' ') ∧
      _matches_heading_pattern (str " ab") = false := by
  decide

/-- C10 (amended).  Because every pattern carries `re.IGNORECASE`: a text
whose first character is a letter, with at least two further characters
all letters or whitespace, matches (via the all-caps pattern) even when
fully lowercase; and a text beginning with a letter of either case
followed by an optional period and then whitespace matches (via the
single-capital-letter pattern). -/
theorem c10_patterns_ignorecase (c : Char) (cs r : List Char) :
    (c.isAlpha = true → 2 ≤ cs.length →
      (∀ x ∈ cs, x.isAlpha = true ∨ pyIsSpace x = true) →
      _matches_heading_pattern (c :: cs) = true) ∧
    (c.isAlpha = true → optDotWs r = true →
      _matches_heading_pattern (c :: r) = true) := by
  constructor
  · intro ha hlen hall
    have hcaps : matchAllCaps (c :: cs) = true := by
      simp only [matchAllCaps, Bool.and_eq_true, decide_eq_true_eq]
      refine ⟨⟨ha, hlen⟩, ?_⟩
      rw [List.all_eq_true]
      intro x hx
      rcases hall x hx with h | h <;> simp [h]
    simp [_matches_heading_pattern, hcaps]
  · intro ha hdot
    have hsc : matchSingleCap (c :: r) = true := by
      simp [matchSingleCap, ha, hdot]
    simp [_matches_heading_pattern, hsc]

/-- C10 witness: the theorem applied to the spec's lowercase examples. -/
theorem c10_patterns_ignorecase_witness :
    _matches_heading_pattern (str "hello world") = true ∧
      _matches_heading_pattern (str "a cat sat") = true :=
  ⟨(c10_patterns_ignorecase 'h' (str "ello world") []).1
      (by decide) (by decide) (by decide),
   (c10_patterns_ignorecase 'a' [] (str " cat sat")).2 (by decide) (by decide)⟩

end HeadingExtractor
